import Mathlib

/-! PS3604L_Panel: the runtime bridge of `system/src/syscall.c`.

A shallow embedding of the newlib system-call layer of the firmware
(`_sbrk`, the constructor/destructor runners and the file-descriptor stubs)
together with the properties proved about it.

Conventions of the embedding.

* The target is a 32-bit Cortex-M4 (`stm32f4xx.h`, `uint32_t __get_MSP(void)`):
  an address (`caddr_t`) and a `size_t` are natural numbers below `2 ^ 32`,
  and arithmetic on them is taken modulo `2 ^ 32`.
* `intptr_t` and `int` values are integers.
* The two objects with static storage duration that the file touches,
  the function-local `heapEnd` and the C library's `errno`, form the record
  `Sys`, which every function receives and gives back.
* Memory handed in by the caller through a pointer (a buffer, a status record)
  is passed as the value it holds and given back as the value it holds afterwards.
* Calls through the linker tables are recorded in a trace of `Call` events.
-/

set_option linter.unusedVariables false

namespace PS3604L

/-! ## Constants of the C library headers -/

/-- Number of distinct values of a 32-bit address or `size_t`. -/
def ADDR_MOD : Nat := 4294967296

/-- Value of `ENOMEM` in the `errno.h` of the toolchain's C library (newlib). -/
def ENOMEM : Int := 12

/-- Value of `EINVAL` in the `errno.h` of the toolchain's C library (newlib). -/
def EINVAL : Int := 22

/-- Value of `EBADF` in the `errno.h` of the toolchain's C library (newlib). -/
def EBADF : Int := 9

/-- Value of `STDIN_FILENO` in `sys/unistd.h`. -/
def STDIN_FILENO : Int := 0

/-- Value of `STDOUT_FILENO` in `sys/unistd.h`. -/
def STDOUT_FILENO : Int := 1

/-- Value of `STDERR_FILENO` in `sys/unistd.h`. -/
def STDERR_FILENO : Int := 2

/-! ## Process-wide state -/

/-- The static objects written by `syscall.c`: `heapEnd` of `_sbrk` and `errno`. -/
structure Sys where
  heapEnd : Nat
  errno : Int
  deriving DecidableEq, Repr

/-! ## Memory arena guard: `_sbrk` -/

/-- Pointer arithmetic `p + incr` on a `caddr_t` with a signed `intptr_t` offset,
as the 32-bit machine computes it. -/
def ptrAdd (p : Nat) (incr : Int) : Nat :=
  (((p : Int) + incr) % (ADDR_MOD : Int)).toNat

/-- How a call of `_sbrk` ends: it gives back the previous heap end, or it
reaches `abort()` and control never comes back to the caller. -/
inductive SbrkResult where
  | returned (prevHeapEnd : Nat) (s : Sys)
  | aborted (s : Sys)
  deriving DecidableEq, Repr

/-- The function `_sbrk(incr)`; `msp` is the value `__get_MSP()` gives at this call. -/
def _sbrk (s : Sys) (incr : Int) (msp : Nat) : SbrkResult :=
  let prevHeapEnd := s.heapEnd
  let stack := msp
  if ptrAdd s.heapEnd incr ≥ stack then
    SbrkResult.aborted { s with errno := ENOMEM }
  else
    SbrkResult.returned prevHeapEnd { s with heapEnd := ptrAdd s.heapEnd incr }

/-- A run of consecutive `_sbrk` calls, each with its increment and the stack
pointer read at that call. The run gives the addresses returned, in call order,
and the final state; it gives `none` as soon as one call aborts. -/
def sbrkCalls (s : Sys) : List (Int × Nat) → Option (List Nat × Sys)
  | [] => some ([], s)
  | (incr, msp) :: rest =>
    match _sbrk s incr msp with
    | SbrkResult.aborted _ => none
    | SbrkResult.returned prev s1 =>
      match sbrkCalls s1 rest with
      | none => none
      | some (rets, sf) => some (prev :: rets, sf)

/-! ## Startup sequencer: `__libc_init_array`, `__libc_fini_array` -/

/-- Element counts of the three linker tables, each the difference of its
`_end` and `_start` symbols (`__preinit_array_end - __preinit_array_start`, ...). -/
structure LinkerTables where
  preinitCount : Nat
  initCount : Nat
  finiCount : Nat
  deriving DecidableEq, Repr

/-- One call made by the sequencer: entry `i` of a table, or one of the hooks. -/
inductive Call where
  | preinit (i : Nat)
  | init (i : Nat)
  | fini (i : Nat)
  | _init
  | _fini
  deriving DecidableEq, Repr

/-- The loop `for(i = ...; i < count; i++){ table[i](); }` entered with the
given value of `i`, on `size_t` counters. Every iteration uses one unit of
fuel; the result is the trace extended by the calls made. -/
def forUp (entry : Nat → Call) (count : Nat) : Nat → Nat → List Call → Option (List Call)
  | 0, _, _ => none
  | fuel + 1, i, trace =>
    if i < count then
      forUp entry count fuel ((i + 1) % ADDR_MOD) (trace ++ [entry i])
    else
      some trace

/-- The loop `for(i = ...; i > 0; i--){ table[i - 1](); }` entered with the
given value of `i`, on `size_t` counters (both `i - 1` and `i--` wrap). -/
def forDown (entry : Nat → Call) : Nat → Nat → List Call → Option (List Call)
  | 0, _, _ => none
  | fuel + 1, i, trace =>
    if i > 0 then
      forDown entry fuel ((i + ADDR_MOD - 1) % ADDR_MOD)
        (trace ++ [entry ((i + ADDR_MOD - 1) % ADDR_MOD)])
    else
      some trace

/-- The function `__libc_init_array()`: the trace of the calls it makes. -/
def __libc_init_array (t : LinkerTables) (fuel : Nat) : Option (List Call) :=
  let count := t.preinitCount
  match forUp Call.preinit count fuel 0 [] with
  | none => none
  | some trace =>
    let trace := trace ++ [Call._init]
    let count := t.initCount
    forUp Call.init count fuel 0 trace

/-- The function `__libc_fini_array()`: the trace of the calls it makes. -/
def __libc_fini_array (t : LinkerTables) (fuel : Nat) : Option (List Call) :=
  let count := t.finiCount
  match forDown Call.fini fuel count [] with
  | none => none
  | some trace => some (trace ++ [Call._fini])

/-- Whether a call goes through an entry of one of the linker tables. -/
def Call.isEntry : Call → Bool
  | Call.preinit _ => true
  | Call.init _ => true
  | Call.fini _ => true
  | Call._init => false
  | Call._fini => false

/-! ## I/O shim -/

/-- What a shim call gives back: the returned `int`, the caller's memory behind
the pointer argument as it is after the call, and the process-wide state. -/
structure Ret (α : Type) where
  ret : Int
  obj : α
  sys : Sys
  deriving DecidableEq, Repr

/-- The function `_kill(pid, sig)`. -/
def _kill (s : Sys) (pid sig : Int) : Ret Unit :=
  { ret := -1, obj := (), sys := { s with errno := EINVAL } }

/-- The function `_getpid()`. -/
def _getpid (s : Sys) : Ret Unit :=
  { ret := 1, obj := (), sys := s }

/-- The function `_write(file, ptr, len)`; `buf` is the memory `ptr` points to. -/
def _write (s : Sys) (file : Int) (buf : List Nat) (len : Int) : Ret (List Nat) :=
  { ret := -1, obj := buf, sys := s }

/-- The function `_read(file, ptr, len)`; `buf` is the memory `ptr` points to. -/
def _read (s : Sys) (file : Int) (buf : List Nat) (len : Int) : Ret (List Nat) :=
  { ret := -1, obj := buf, sys := s }

/-- The function `_close(file)`. -/
def _close (s : Sys) (file : Int) : Ret Unit :=
  { ret := -1, obj := (), sys := s }

/-- The function `_isatty(file)`. -/
def _isatty (s : Sys) (file : Int) : Ret Unit :=
  if file = STDOUT_FILENO then { ret := 1, obj := (), sys := s }
  else if file = STDERR_FILENO then { ret := 1, obj := (), sys := s }
  else if file = STDIN_FILENO then { ret := 1, obj := (), sys := s }
  else { ret := 0, obj := (), sys := { s with errno := EBADF } }

/-- Value of `S_IFCHR` in `sys/stat.h` (octal 0020000). -/
def S_IFCHR : Nat := 8192

/-- The status record `struct stat` of `sys/stat.h`, field by field. -/
structure Stat where
  st_dev : Nat
  st_ino : Nat
  st_mode : Nat
  st_nlink : Nat
  st_uid : Nat
  st_gid : Nat
  st_rdev : Nat
  st_size : Int
  st_atime : Int
  st_mtime : Int
  st_ctime : Int
  st_blksize : Int
  st_blocks : Int
  deriving DecidableEq, Repr

/-- The function `_fstat(file, st)`; the record is the memory `st` points to. -/
def _fstat (s : Sys) (file : Int) (st : Stat) : Ret Stat :=
  { ret := 0, obj := { st with st_mode := S_IFCHR }, sys := s }

/-- The function `_lseek(file, ptr, dir)`. -/
def _lseek (s : Sys) (file ptr dir : Int) : Ret Unit :=
  { ret := 0, obj := (), sys := s }

/-! ## Process exit: `_exit` -/

/-- Where control is once `_exit(code)` has been entered: at the head of its
loop `while(1);`, or back in the caller. -/
inductive Control where
  | atLoop (code : Int)
  | inCaller
  deriving DecidableEq, Repr

/-- One step of `while(1);`: the condition is the constant `1`; when it is not
zero the empty body runs and control is at the loop head again, otherwise the
loop is left and the function returns. -/
def exitStep : Control × Sys → Control × Sys
  | (Control.atLoop code, s) =>
    if (1 : Int) ≠ 0 then (Control.atLoop code, s) else (Control.inCaller, s)
  | (Control.inCaller, s) => (Control.inCaller, s)

/-- The function `_exit(code)`: the machine state `n` steps after entry. -/
def _exit (code : Int) (s : Sys) : Nat → Control × Sys
  | 0 => (Control.atLoop code, s)
  | n + 1 => exitStep (_exit code s n)

/-! ## Sequences of calls -/

/-- The state a call of `_sbrk` leaves behind, whether it returned or aborted. -/
def SbrkResult.sys : SbrkResult → Sys
  | SbrkResult.returned _ s => s
  | SbrkResult.aborted s => s

/-- The states after each call of a run of `_sbrk` calls; the run ends with the
state left by the first call that aborts. -/
def sbrkTrace (s : Sys) : List (Int × Nat) → List Sys
  | [] => []
  | (incr, msp) :: rest =>
    match _sbrk s incr msp with
    | SbrkResult.aborted s1 => [s1]
    | SbrkResult.returned _ s1 => s1 :: sbrkTrace s1 rest

/-- A call of `_sbrk` or of one of the shim functions that give control back,
with its arguments. -/
inductive Op where
  | sbrk (incr : Int) (msp : Nat)
  | kill (pid sig : Int)
  | getpid
  | write (file : Int) (buf : List Nat) (len : Int)
  | read (file : Int) (buf : List Nat) (len : Int)
  | close (file : Int)
  | fstat (file : Int) (st : Stat)
  | isatty (file : Int)
  | lseek (file ptr dir : Int)
  deriving Repr

/-- The process-wide state after one call; `none` when the call aborts. -/
def applyOp (s : Sys) : Op → Option Sys
  | Op.sbrk incr msp =>
    match _sbrk s incr msp with
    | SbrkResult.returned _ s1 => some s1
    | SbrkResult.aborted _ => none
  | Op.kill pid sig => some (_kill s pid sig).sys
  | Op.getpid => some (_getpid s).sys
  | Op.write file buf len => some (_write s file buf len).sys
  | Op.read file buf len => some (_read s file buf len).sys
  | Op.close file => some (_close s file).sys
  | Op.fstat file st => some (_fstat s file st).sys
  | Op.isatty file => some (_isatty s file).sys
  | Op.lseek file ptr dir => some (_lseek s file ptr dir).sys

/-- The process-wide state after a sequence of calls made one after the other. -/
def runOps (s : Sys) : List Op → Option Sys
  | [] => some s
  | op :: rest =>
    match applyOp s op with
    | none => none
    | some s1 => runOps s1 rest

/-! ## Firmware version: `version.c` -/

/-- The constant `fwinfoMajor`. -/
def fwinfoMajor : Nat := 2

/-- The constant `fwinfoMinor`. -/
def fwinfoMinor : Nat := 1

/-- The constant `fwinfoRevision`. -/
def fwinfoRevision : Nat := 6

/-- The constant `fwinfoBuild`. -/
def fwinfoBuild : Nat := 4296

/-- The character array `fwinfoVersion`, without its terminating zero. -/
def fwinfoVersion : String := "2.1.6.4296"

end PS3604L

namespace PS3604L

/-! ## Address arithmetic -/

/-- The machine sum is an address. -/
theorem ptrAdd_lt (p : Nat) (incr : Int) : ptrAdd p incr < ADDR_MOD := by
  unfold ptrAdd ADDR_MOD
  omega

/-- The machine sum is the exact sum whenever the exact sum is an address. -/
theorem ptrAdd_exact (p : Nat) (incr : Int) (h0 : 0 ≤ (p : Int) + incr)
    (h1 : (p : Int) + incr < (ADDR_MOD : Int)) : ((ptrAdd p incr : Nat) : Int) = (p : Int) + incr := by
  unfold ptrAdd
  unfold ADDR_MOD at *
  omega

/-! ## `_sbrk`: one call -/

/-- The two branches of `_sbrk`, read off the machine sum. -/
theorem sbrk_returned_of_lt (s : Sys) (incr : Int) (msp : Nat) (h : ptrAdd s.heapEnd incr < msp) :
    _sbrk s incr msp
      = SbrkResult.returned s.heapEnd { heapEnd := ptrAdd s.heapEnd incr, errno := s.errno } := by
  unfold _sbrk
  simp only [ge_iff_le]
  rw [if_neg (by omega)]

theorem sbrk_aborted_of_ge (s : Sys) (incr : Int) (msp : Nat) (h : msp ≤ ptrAdd s.heapEnd incr) :
    _sbrk s incr msp = SbrkResult.aborted { heapEnd := s.heapEnd, errno := ENOMEM } := by
  unfold _sbrk
  simp only [ge_iff_le]
  rw [if_pos h]

/-- What a returning call of `_sbrk` has done. -/
theorem sbrk_returned_inv (s s1 : Sys) (incr : Int) (msp prev : Nat)
    (h : _sbrk s incr msp = SbrkResult.returned prev s1) :
    prev = s.heapEnd ∧ s1.heapEnd = ptrAdd s.heapEnd incr ∧ s1.errno = s.errno
      ∧ ptrAdd s.heapEnd incr < msp := by
  by_cases hc : ptrAdd s.heapEnd incr < msp
  · rw [sbrk_returned_of_lt s incr msp hc] at h
    injection h with h1 h2
    subst h1
    subst h2
    exact ⟨rfl, rfl, rfl, hc⟩
  · rw [sbrk_aborted_of_ge s incr msp (by omega)] at h
    cases h

/-! ## `_sbrk`: runs of calls -/

/-- A run that comes back from every call leaves the heap end below the stack
pointer read at its last call. -/
theorem sbrkCalls_below_last : ∀ (calls : List (Int × Nat)) (s sf : Sys) (rets : List Nat),
    sbrkCalls s calls = some (rets, sf) →
    ∀ c, calls.getLast? = some c → sf.heapEnd < c.2 := by
  intro calls
  induction calls with
  | nil => intro s sf rets _ c hc; simp at hc
  | cons c0 rest ih =>
    intro s sf rets hrun c hc
    obtain ⟨incr, msp⟩ := c0
    unfold sbrkCalls at hrun
    cases hstep : _sbrk s incr msp with
    | aborted s2 => rw [hstep] at hrun; simp at hrun
    | returned prev s1 =>
      rw [hstep] at hrun
      simp only at hrun
      have hinv := sbrk_returned_inv s s1 incr msp prev hstep
      cases hrest : sbrkCalls s1 rest with
      | none => rw [hrest] at hrun; simp at hrun
      | some pr =>
        obtain ⟨rets1, sf1⟩ := pr
        rw [hrest] at hrun
        simp only [Option.some.injEq, Prod.mk.injEq] at hrun
        obtain ⟨_, hsf⟩ := hrun
        subst hsf
        cases rest with
        | nil =>
          simp only [sbrkCalls, Option.some.injEq, Prod.mk.injEq] at hrest
          simp only [List.getLast?_singleton, Option.some.injEq] at hc
          subst hc
          rw [← hrest.2]
          show s1.heapEnd < msp
          omega
        | cons c1 rest1 =>
          rw [List.getLast?_cons_cons] at hc
          exact ih s1 sf1 rets1 hrest c hc

/-- A run of non-negative increments whose exact total stays an address comes
back from no call with a heap end other than start plus the increments so far. -/
theorem sbrkCalls_nonneg_sum : ∀ (calls : List (Int × Nat)) (s sf : Sys) (rets : List Nat),
    sbrkCalls s calls = some (rets, sf) →
    (∀ c ∈ calls, 0 ≤ c.1) →
    (s.heapEnd : Int) + (calls.map Prod.fst).sum < (ADDR_MOD : Int) →
    (sf.heapEnd : Int) = (s.heapEnd : Int) + (calls.map Prod.fst).sum := by
  intro calls
  induction calls with
  | nil =>
    intro s sf rets hrun _ _
    simp only [sbrkCalls, Option.some.injEq, Prod.mk.injEq] at hrun
    rw [← hrun.2]
    simp
  | cons c0 rest ih =>
    intro s sf rets hrun hnn hfit
    obtain ⟨incr, msp⟩ := c0
    unfold sbrkCalls at hrun
    have hrestnn : ∀ c ∈ rest, 0 ≤ c.1 := fun c hc => hnn c (List.mem_cons_of_mem _ hc)
    have hincr : 0 ≤ incr := hnn (incr, msp) (List.mem_cons_self _ _)
    have hsumnn : 0 ≤ (rest.map Prod.fst).sum := by
      apply List.sum_nonneg
      intro x hx
      obtain ⟨c, hc, rfl⟩ := List.mem_map.mp hx
      exact hrestnn c hc
    simp only [List.map_cons, List.sum_cons] at hfit ⊢
    cases hstep : _sbrk s incr msp with
    | aborted s2 => rw [hstep] at hrun; simp at hrun
    | returned prev s1 =>
      rw [hstep] at hrun
      simp only at hrun
      have hinv := sbrk_returned_inv s s1 incr msp prev hstep
      have hex := ptrAdd_exact s.heapEnd incr (by omega) (by omega)
      cases hrest : sbrkCalls s1 rest with
      | none => rw [hrest] at hrun; simp at hrun
      | some pr =>
        obtain ⟨rets1, sf1⟩ := pr
        rw [hrest] at hrun
        simp only [Option.some.injEq, Prod.mk.injEq] at hrun
        obtain ⟨_, hsf⟩ := hrun
        subst hsf
        have h1 : (s1.heapEnd : Int) = (s.heapEnd : Int) + incr := by rw [hinv.2.1]; exact hex
        have := ih s1 sf1 rets1 hrest hrestnn (by omega)
        omega

/-- With one fixed stack pointer, a run whose running exact heap ends all stay
in the half-open range from zero to the stack pointer comes back from every call. -/
theorem sbrkCalls_fixed_sp (sp : Nat) (hsp : sp < ADDR_MOD) : ∀ (reqs : List Int) (s : Sys),
    (∀ k, 1 ≤ k → k ≤ reqs.length → 0 ≤ (s.heapEnd : Int) + (reqs.take k).sum) →
    (∀ k, 1 ≤ k → k ≤ reqs.length → (s.heapEnd : Int) + (reqs.take k).sum < (sp : Int)) →
    ∃ rets sf, sbrkCalls s (reqs.map (fun r => (r, sp))) = some (rets, sf)
      ∧ rets.length = reqs.length
      ∧ (∀ k, k < reqs.length → ((rets.getD k 0 : Nat) : Int) = (s.heapEnd : Int) + (reqs.take k).sum)
      ∧ (sf.heapEnd : Int) = (s.heapEnd : Int) + reqs.sum
      ∧ sf.errno = s.errno := by
  intro reqs
  induction reqs with
  | nil =>
    intro s _ _
    exact ⟨[], s, rfl, rfl, by intro k hk; simp at hk, by simp, rfl⟩
  | cons r rest ih =>
    intro s hlo hhi
    have hlo1 := hlo 1 (le_refl 1) (by simp)
    have hhi1 := hhi 1 (le_refl 1) (by simp)
    simp only [List.take_succ_cons, List.take_zero, List.sum_cons, List.sum_nil, add_zero] at hlo1 hhi1
    have hex := ptrAdd_exact s.heapEnd r hlo1 (by unfold ADDR_MOD at *; omega)
    have hstep := sbrk_returned_of_lt s r sp (by omega)
    obtain ⟨rets, sf, hrun, hlen, hret, hend, herr⟩ :=
      ih { heapEnd := ptrAdd s.heapEnd r, errno := s.errno }
        (by
          intro k hk1 hk2
          have := hlo (k + 1) (by omega) (by simp; omega)
          simp only [List.take_succ_cons, List.sum_cons] at this
          show 0 ≤ ((ptrAdd s.heapEnd r : Nat) : Int) + (List.take k rest).sum
          omega)
        (by
          intro k hk1 hk2
          have := hhi (k + 1) (by omega) (by simp; omega)
          simp only [List.take_succ_cons, List.sum_cons] at this
          show ((ptrAdd s.heapEnd r : Nat) : Int) + (List.take k rest).sum < (sp : Int)
          omega)
    refine ⟨s.heapEnd :: rets, sf, ?_, by simp [hlen], ?_, ?_, herr⟩
    · simp only [List.map_cons, sbrkCalls, hstep, hrun]
    · intro k hk
      cases k with
      | zero => simp
      | succ j =>
        have := hret j (by simpa using hk)
        simp only [List.getD_cons_succ, List.take_succ_cons, List.sum_cons]
        change ((rets.getD j 0 : Nat) : Int) = ((ptrAdd s.heapEnd r : Nat) : Int) + (List.take j rest).sum at this
        omega
    · simp only [List.sum_cons]
      change (sf.heapEnd : Int) = ((ptrAdd s.heapEnd r : Nat) : Int) + rest.sum at hend
      omega

/-! ## Startup sequencer: the two loops -/

/-- The ascending loop, given fuel for every entry still to run, calls the
entries from `i` up to `count - 1` in that order and then stops. -/
theorem forUp_spec (entry : Nat → Call) (count : Nat) (hc : count < ADDR_MOD) :
    ∀ (fuel i : Nat) (trace : List Call), i ≤ count → count - i < fuel →
    forUp entry count fuel i trace = some (trace ++ (List.range' i (count - i)).map entry) := by
  intro fuel
  induction fuel with
  | zero => intro i trace _ hf; omega
  | succ n ih =>
    intro i trace hi hf
    unfold forUp
    by_cases hlt : i < count
    · rw [if_pos hlt]
      have hmod : (i + 1) % ADDR_MOD = i + 1 := Nat.mod_eq_of_lt (by omega)
      rw [hmod, ih (i + 1) (trace ++ [entry i]) (by omega) (by omega)]
      have hsplit : count - i = (count - (i + 1)) + 1 := by omega
      rw [hsplit, List.range'_succ]
      simp
    · rw [if_neg hlt]
      have hz : count - i = 0 := by omega
      rw [hz]
      simp

/-- The descending loop, given fuel for every entry still to run, calls the
entries from `i - 1` down to `0` in that order and then stops. -/
theorem forDown_spec (entry : Nat → Call) :
    ∀ (fuel i : Nat) (trace : List Call), i < ADDR_MOD → i < fuel →
    forDown entry fuel i trace = some (trace ++ (List.range i).reverse.map entry) := by
  intro fuel
  induction fuel with
  | zero => intro i trace _ hf; omega
  | succ n ih =>
    intro i trace hi hf
    unfold forDown
    cases i with
    | zero => simp
    | succ j =>
      have hmod : (j + 1 + ADDR_MOD - 1) % ADDR_MOD = j := by
        unfold ADDR_MOD at *
        omega
      rw [if_pos (by omega), hmod, ih j (trace ++ [entry j]) (by omega) (by omega)]
      rw [List.range_succ]
      simp

/-- The whole trace of `__libc_init_array`, given enough fuel. -/
theorem libc_init_array_trace (t : LinkerTables) (fuel : Nat)
    (hN : t.preinitCount < ADDR_MOD) (hM : t.initCount < ADDR_MOD)
    (hfN : t.preinitCount < fuel) (hfM : t.initCount < fuel) :
    __libc_init_array t fuel
      = some ((List.range t.preinitCount).map Call.preinit ++ [Call._init]
          ++ (List.range t.initCount).map Call.init) := by
  unfold __libc_init_array
  simp only
  rw [forUp_spec Call.preinit t.preinitCount hN fuel 0 [] (Nat.zero_le _) (by omega)]
  simp only
  rw [forUp_spec Call.init t.initCount hM fuel 0 _ (Nat.zero_le _) (by omega)]
  simp [List.range_eq_range']

/-- The whole trace of `__libc_fini_array`, given enough fuel. -/
theorem libc_fini_array_trace (t : LinkerTables) (fuel : Nat)
    (hK : t.finiCount < ADDR_MOD) (hf : t.finiCount < fuel) :
    __libc_fini_array t fuel
      = some ((List.range t.finiCount).reverse.map Call.fini ++ [Call._fini]) := by
  unfold __libc_fini_array
  simp only
  rw [forDown_spec Call.fini fuel t.finiCount [] hK hf]
  simp

/-- Filtering the table entries out of the start-up trace drops the hook only. -/
theorem filter_isEntry_init (n m : Nat) :
    ((List.range n).map Call.preinit ++ [Call._init] ++ (List.range m).map Call.init).filter
        Call.isEntry
      = (List.range n).map Call.preinit ++ (List.range m).map Call.init := by
  simp only [List.filter_append, List.filter_map]
  have h1 : (List.range n).filter (Call.isEntry ∘ Call.preinit) = List.range n := by
    apply List.filter_eq_self.mpr
    intro a _; rfl
  have h2 : (List.range m).filter (Call.isEntry ∘ Call.init) = List.range m := by
    apply List.filter_eq_self.mpr
    intro a _; rfl
  rw [h1, h2]
  simp [Call.isEntry]

/-! ## Memory arena guard: the properties -/

/-- C1 (amended): for every arena end `e`, signed increment and stack pointer
`sp` (an address, below `2 ^ 32`) with `0 ≤ e + incr < sp`, `_sbrk(incr)` returns
`e`, the arena end held before the call, and leaves the arena end equal to
`e + incr`; `errno` is not touched. -/
theorem sbrk_success (s : Sys) (incr : Int) (msp : Nat) (hmsp : msp < ADDR_MOD)
    (h0 : 0 ≤ (s.heapEnd : Int) + incr) (h1 : (s.heapEnd : Int) + incr < (msp : Int)) :
    ∃ s1, _sbrk s incr msp = SbrkResult.returned s.heapEnd s1
      ∧ (s1.heapEnd : Int) = (s.heapEnd : Int) + incr ∧ s1.errno = s.errno := by
  have hex := ptrAdd_exact s.heapEnd incr h0 (by unfold ADDR_MOD at *; omega)
  exact ⟨_, sbrk_returned_of_lt s incr msp (by omega), hex, rfl⟩

/-- Witness of C1: origin 0x1000, stack pointer 0x1100, `_sbrk(0x50)` returns
0x1000 and the new end is 0x1050. -/
theorem sbrk_success_witness :
    (0x1100 : Nat) < ADDR_MOD ∧ 0 ≤ ((0x1000 : Nat) : Int) + 0x50
      ∧ ((0x1000 : Nat) : Int) + 0x50 < ((0x1100 : Nat) : Int)
      ∧ ∃ s1, _sbrk ⟨0x1000, 0⟩ 0x50 0x1100 = SbrkResult.returned 0x1000 s1
          ∧ (s1.heapEnd : Int) = ((0x1000 : Nat) : Int) + 0x50 ∧ s1.errno = 0 :=
  ⟨by decide, by decide, by decide,
    sbrk_success ⟨0x1000, 0⟩ 0x50 0x1100 (by decide) (by decide) (by decide)⟩

/-- C1 as stated fails: with arena end 0x1000, increment -0x2000 and stack
pointer 0x1100 the exact sum -0x1000 is below the stack pointer, yet the call
does not return 0x1000: the address sum is 0xFFFFF000 and the call aborts. -/
theorem sbrk_success_counterexample :
    ((0x1000 : Nat) : Int) + (-0x2000) < ((0x1100 : Nat) : Int)
      ∧ ptrAdd 0x1000 (-0x2000) = 0xFFFFF000
      ∧ _sbrk ⟨0x1000, 0⟩ (-0x2000) 0x1100 = SbrkResult.aborted ⟨0x1000, ENOMEM⟩ := by
  decide

/-- C2 (amended): for every arena end `e`, increment and stack pointer `sp` with
`sp ≤ e + incr < 2 ^ 32`, `_sbrk(incr)` does not return an address: it sets
`errno = ENOMEM` and aborts, with the arena end still `e`. -/
theorem sbrk_refused (s : Sys) (incr : Int) (msp : Nat)
    (h1 : (msp : Int) ≤ (s.heapEnd : Int) + incr)
    (h2 : (s.heapEnd : Int) + incr < (ADDR_MOD : Int)) :
    _sbrk s incr msp = SbrkResult.aborted { heapEnd := s.heapEnd, errno := ENOMEM } := by
  have hex := ptrAdd_exact s.heapEnd incr (by omega) h2
  exact sbrk_aborted_of_ge s incr msp (by omega)

/-- Witness of C2: arena end 0x1050, increment 0xB0, stack pointer 0x1100: the
sum 0x1100 reaches the stack pointer and the call is fatal. -/
theorem sbrk_refused_witness :
    ((0x1100 : Nat) : Int) ≤ ((0x1050 : Nat) : Int) + 0xB0
      ∧ ((0x1050 : Nat) : Int) + 0xB0 < (ADDR_MOD : Int)
      ∧ _sbrk ⟨0x1050, 0⟩ 0xB0 0x1100 = SbrkResult.aborted ⟨0x1050, ENOMEM⟩ :=
  ⟨by decide, by decide, sbrk_refused ⟨0x1050, 0⟩ 0xB0 0x1100 (by decide) (by decide)⟩

/-- C2 as stated fails: with arena end 0xD0000000, increment 0x40000000 and
stack pointer 0xD0010000 the exact sum 0x110000000 is above the stack pointer,
yet the call returns and moves the arena end to 0x10000000. -/
theorem sbrk_refused_counterexample :
    ((0xD0010000 : Nat) : Int) ≤ ((0xD0000000 : Nat) : Int) + 0x40000000
      ∧ _sbrk ⟨0xD0000000, 0⟩ 0x40000000 0xD0010000
          = SbrkResult.returned 0xD0000000 ⟨0x10000000, 0⟩ := by
  decide

/-- C3 (amended): for every sequence of signed growth requests whose running
arena end (origin plus the requests so far) stays at or above address 0 and
below a fixed stack pointer, every `_sbrk` call returns, the first call returns
the origin, call `k` returns the origin plus the first `k` requests, which is
the previous call's return plus the previous request, and the final arena end
is the origin plus the sum of all requests. -/
theorem sbrk_sequence_gapless (origin sp : Nat) (errno : Int) (reqs : List Int)
    (hsp : sp < ADDR_MOD)
    (hrange : ∀ k, k < reqs.length →
      0 ≤ (origin : Int) + (reqs.take (k + 1)).sum
        ∧ (origin : Int) + (reqs.take (k + 1)).sum < (sp : Int)) :
    ∃ rets sf, sbrkCalls ⟨origin, errno⟩ (reqs.map (fun r => (r, sp))) = some (rets, sf)
      ∧ rets.length = reqs.length
      ∧ (0 < reqs.length → rets.getD 0 0 = origin)
      ∧ (∀ k, k < reqs.length → ((rets.getD k 0 : Nat) : Int) = (origin : Int) + (reqs.take k).sum)
      ∧ (∀ k, k + 1 < reqs.length →
          ((rets.getD (k + 1) 0 : Nat) : Int) = ((rets.getD k 0 : Nat) : Int) + reqs.getD k 0)
      ∧ (sf.heapEnd : Int) = (origin : Int) + reqs.sum
      ∧ sf.errno = errno := by
  obtain ⟨rets, sf, hrun, hlen, hret, hend, herr⟩ :=
    sbrkCalls_fixed_sp sp hsp reqs ⟨origin, errno⟩
      (by
        intro k hk1 hk2
        obtain ⟨j, rfl⟩ : ∃ j, k = j + 1 := ⟨k - 1, by omega⟩
        exact (hrange j (by omega)).1)
      (by
        intro k hk1 hk2
        obtain ⟨j, rfl⟩ : ∃ j, k = j + 1 := ⟨k - 1, by omega⟩
        exact (hrange j (by omega)).2)
  refine ⟨rets, sf, hrun, hlen, ?_, hret, ?_, hend, herr⟩
  · intro hpos
    have := hret 0 hpos
    simp only [List.take_zero, List.sum_nil, add_zero] at this
    exact_mod_cast this
  · intro k hk
    have h1 := hret (k + 1) hk
    have h0 := hret k (by omega)
    have hsum := List.sum_take_succ reqs k (by omega)
    have hget : reqs.getD k 0 = reqs[k] := by
      rw [List.getD_eq_getElem?_getD, List.getElem?_eq_getElem (by omega)]
      rfl
    rw [h1, h0, hsum, hget]
    change (origin : Int) + ((reqs.take k).sum + reqs[k]) = (origin : Int) + (reqs.take k).sum + reqs[k]
    omega

/-- Witness of C3: origin 0x1000, stack pointer 0x1100, requests 0x50, -0x20, 0x40. -/
theorem sbrk_sequence_gapless_witness :
    ∃ rets sf, sbrkCalls ⟨0x1000, 0⟩ [(0x50, 0x1100), (-0x20, 0x1100), (0x40, 0x1100)]
        = some (rets, sf)
      ∧ rets.length = 3
      ∧ (0 < 3 → rets.getD 0 0 = 0x1000)
      ∧ (∀ k, k < 3 → ((rets.getD k 0 : Nat) : Int)
          = ((0x1000 : Nat) : Int) + (([0x50, -0x20, 0x40] : List Int).take k).sum)
      ∧ (∀ k, k + 1 < 3 → ((rets.getD (k + 1) 0 : Nat) : Int)
          = ((rets.getD k 0 : Nat) : Int) + ([0x50, -0x20, 0x40] : List Int).getD k 0)
      ∧ (sf.heapEnd : Int) = ((0x1000 : Nat) : Int) + ([0x50, -0x20, 0x40] : List Int).sum
      ∧ sf.errno = 0 :=
  sbrk_sequence_gapless 0x1000 0x1100 0 [0x50, -0x20, 0x40] (by decide) (by decide)

/-- C3 as stated fails: origin 0x1000, stack pointer 0x1100 and the single
request -0x2000 keep the cumulative size below the gap 0x100, yet the first
call aborts. -/
theorem sbrk_sequence_counterexample :
    (([-0x2000] : List Int).take 1).sum < ((0x1100 : Nat) : Int) - ((0x1000 : Nat) : Int)
      ∧ sbrkCalls ⟨0x1000, 0⟩ ([-0x2000].map (fun r => (r, 0x1100))) = none := by
  decide

/-- C4 (amended): starting from `heapEnd = base`, after every run of `_sbrk`
calls that all return, the arena end is below the stack pointer read at the
last call; and when every increment of the run is non-negative and `base` plus
their sum is below `2 ^ 32`, the arena end is at or above `base`. -/
theorem sbrk_arena_invariant (base : Nat) (errno : Int) (calls : List (Int × Nat))
    (rets : List Nat) (sf : Sys)
    (hrun : sbrkCalls ⟨base, errno⟩ calls = some (rets, sf)) :
    (∀ c, calls.getLast? = some c → sf.heapEnd < c.2 ∧ sf.heapEnd ≤ c.2)
      ∧ ((∀ c ∈ calls, 0 ≤ c.1) →
          (base : Int) + (calls.map Prod.fst).sum < (ADDR_MOD : Int) → base ≤ sf.heapEnd) := by
  constructor
  · intro c hc
    have := sbrkCalls_below_last calls ⟨base, errno⟩ sf rets hrun c hc
    omega
  · intro hnn hfit
    have hsum := sbrkCalls_nonneg_sum calls ⟨base, errno⟩ sf rets hrun hnn hfit
    have hsumnn : 0 ≤ (calls.map Prod.fst).sum := by
      apply List.sum_nonneg
      intro x hx
      obtain ⟨c, hc, rfl⟩ := List.mem_map.mp hx
      exact hnn c hc
    change (sf.heapEnd : Int) = (base : Int) + (calls.map Prod.fst).sum at hsum
    omega

/-- Witness of C4: base 0x1000, calls `_sbrk(0x50)` and `_sbrk(0x20)` with
stack pointers 0x1100 and 0x10F0. -/
theorem sbrk_arena_invariant_witness :
    sbrkCalls ⟨0x1000, 0⟩ [(0x50, 0x1100), (0x20, 0x10F0)]
        = some ([0x1000, 0x1050], ⟨0x1070, 0⟩)
      ∧ (∀ c, [((0x50 : Int), (0x1100 : Nat)), (0x20, 0x10F0)].getLast? = some c →
          (0x1070 : Nat) < c.2 ∧ (0x1070 : Nat) ≤ c.2)
      ∧ ((∀ c ∈ [((0x50 : Int), (0x1100 : Nat)), (0x20, 0x10F0)], 0 ≤ c.1) →
          ((0x1000 : Nat) : Int)
              + ([((0x50 : Int), (0x1100 : Nat)), (0x20, 0x10F0)].map Prod.fst).sum
            < (ADDR_MOD : Int) →
          (0x1000 : Nat) ≤ 0x1070) :=
  ⟨by decide,
    sbrk_arena_invariant 0x1000 0 [(0x50, 0x1100), (0x20, 0x10F0)] [0x1000, 0x1050]
      ⟨0x1070, 0⟩ (by decide)⟩

/-- C4 as stated fails: from base 0x1000 the call `_sbrk(-0x10)` with stack
pointer 0x1100 returns and leaves the arena end at 0xFF0, below the base. -/
theorem sbrk_arena_invariant_counterexample :
    sbrkCalls ⟨0x1000, 0⟩ [(-0x10, 0x1100)] = some ([0x1000], ⟨0xFF0, 0⟩)
      ∧ ¬ ((0x1000 : Nat) ≤ (⟨0xFF0, 0⟩ : Sys).heapEnd) := by
  decide

/-! ## Startup sequencer: the properties -/

/-- An index below `n` occurs once among the calls made for the indices `0 .. n - 1`. -/
theorem count_map_range (f : Nat → Call) (hf : Function.Injective f) (n i : Nat) (hi : i < n) :
    ((List.range n).map f).count (f i) = 1 :=
  List.count_eq_one_of_mem ((List.nodup_range n).map hf)
    (List.mem_map.mpr ⟨i, List.mem_range.mpr hi, rfl⟩)

/-- A call that is not of the shape `f i` does not occur among the calls `f 0 .. f (n - 1)`. -/
theorem count_map_range_other (f : Nat → Call) (c : Call) (hc : ∀ i, f i ≠ c) (l : List Nat) :
    (l.map f).count c = 0 := by
  apply List.count_eq_zero_of_not_mem
  intro hmem
  obtain ⟨i, _, hi⟩ := List.mem_map.mp hmem
  exact hc i hi

theorem preinit_injective : Function.Injective Call.preinit := fun _ _ h => by
  injection h

theorem init_injective : Function.Injective Call.init := fun _ _ h => by
  injection h

theorem fini_injective : Function.Injective Call.fini := fun _ _ h => by
  injection h

/-- C5: `__libc_init_array`, given `N` pre-initialization and `M` initialization
entries (and fuel for the longer table), returns having called the table
entries `preinit[0], .., preinit[N-1], init[0], .., init[M-1]` in this order:
`N + M` entry calls, each entry once, ascending within a table, every
pre-initialization entry before any initialization entry. For `N = 0`, `M = 0`
or both the corresponding part is empty, and for `N = M = 0` no entry is called. -/
theorem libc_init_array_entries (t : LinkerTables) (fuel : Nat)
    (hN : t.preinitCount < ADDR_MOD) (hM : t.initCount < ADDR_MOD)
    (hfN : t.preinitCount < fuel) (hfM : t.initCount < fuel) :
    ∃ trace, __libc_init_array t fuel = some trace
      ∧ trace.filter Call.isEntry
          = (List.range t.preinitCount).map Call.preinit ++ (List.range t.initCount).map Call.init
      ∧ (trace.filter Call.isEntry).length = t.preinitCount + t.initCount
      ∧ (∀ i, i < t.preinitCount → trace.count (Call.preinit i) = 1)
      ∧ (∀ j, j < t.initCount → trace.count (Call.init j) = 1)
      ∧ (t.preinitCount = 0 → trace.filter Call.isEntry = (List.range t.initCount).map Call.init)
      ∧ (t.initCount = 0 →
          trace.filter Call.isEntry = (List.range t.preinitCount).map Call.preinit)
      ∧ (t.preinitCount = 0 → t.initCount = 0 → trace.filter Call.isEntry = []) := by
  refine ⟨_, libc_init_array_trace t fuel hN hM hfN hfM, filter_isEntry_init _ _, ?_, ?_, ?_,
    ?_, ?_, ?_⟩
  · rw [filter_isEntry_init]
    simp
  · intro i hi
    rw [List.count_append, List.count_append, count_map_range Call.preinit preinit_injective _ i hi,
      count_map_range_other Call.init (Call.preinit i) (fun _ h => by cases h)]
    simp
  · intro j hj
    rw [List.count_append, List.count_append, count_map_range Call.init init_injective _ j hj,
      count_map_range_other Call.preinit (Call.init j) (fun _ h => by cases h)]
    simp
  · intro h0
    rw [filter_isEntry_init, h0]
    simp
  · intro h0
    rw [filter_isEntry_init, h0]
    simp
  · intro h0 h1
    rw [filter_isEntry_init, h0, h1]
    simp

/-- Witness of C5: two pre-initialization entries and three initialization entries. -/
theorem libc_init_array_entries_witness :
    ∃ trace, __libc_init_array ⟨2, 3, 0⟩ 4 = some trace
      ∧ trace.filter Call.isEntry
          = (List.range 2).map Call.preinit ++ (List.range 3).map Call.init
      ∧ (trace.filter Call.isEntry).length = 2 + 3
      ∧ (∀ i, i < 2 → trace.count (Call.preinit i) = 1)
      ∧ (∀ j, j < 3 → trace.count (Call.init j) = 1)
      ∧ ((2 : Nat) = 0 → trace.filter Call.isEntry = (List.range 3).map Call.init)
      ∧ ((3 : Nat) = 0 → trace.filter Call.isEntry = (List.range 2).map Call.preinit)
      ∧ ((2 : Nat) = 0 → (3 : Nat) = 0 → trace.filter Call.isEntry = []) :=
  libc_init_array_entries ⟨2, 3, 0⟩ 4 (by decide) (by decide) (by decide) (by decide)

/-- C6 (amended): `__libc_init_array` calls the hook `_init` exactly once, after
every entry of the pre-initialization table and before every entry of the
initialization table: for every `N` and `M` the call trace is
`preinit[0..N-1], _init, init[0..M-1]`. -/
theorem libc_init_array_hook_between (t : LinkerTables) (fuel : Nat)
    (hN : t.preinitCount < ADDR_MOD) (hM : t.initCount < ADDR_MOD)
    (hfN : t.preinitCount < fuel) (hfM : t.initCount < fuel) :
    ∃ trace, __libc_init_array t fuel = some trace
      ∧ trace = (List.range t.preinitCount).map Call.preinit ++ [Call._init]
          ++ (List.range t.initCount).map Call.init
      ∧ trace.count Call._init = 1 := by
  refine ⟨_, libc_init_array_trace t fuel hN hM hfN hfM, rfl, ?_⟩
  rw [List.count_append, List.count_append,
    count_map_range_other Call.preinit Call._init (fun _ h => by cases h),
    count_map_range_other Call.init Call._init (fun _ h => by cases h)]
  simp

/-- Witness of C6 (amended): two pre-initialization entries and one initialization entry. -/
theorem libc_init_array_hook_between_witness :
    ∃ trace, __libc_init_array ⟨2, 1, 0⟩ 3 = some trace
      ∧ trace = (List.range 2).map Call.preinit ++ [Call._init] ++ (List.range 1).map Call.init
      ∧ trace.count Call._init = 1 :=
  libc_init_array_hook_between ⟨2, 1, 0⟩ 3 (by decide) (by decide) (by decide) (by decide)

/-- C6 as stated fails: with no pre-initialization entry and one initialization
entry the trace is `_init, init[0]`, not `init[0], _init`: the hook runs
before the initialization table. -/
theorem libc_init_array_hook_counterexample :
    __libc_init_array ⟨0, 1, 0⟩ 2 = some [Call._init, Call.init 0]
      ∧ __libc_init_array ⟨0, 1, 0⟩ 2
          ≠ some ((List.range 0).map Call.preinit ++ (List.range 1).map Call.init ++ [Call._init]) := by
  decide

/-- C7: `__libc_fini_array`, given `K` finalization entries (and fuel for them),
returns having called `fini[K-1], .., fini[0]` in this order, each entry once,
and then the hook `_fini` once, last. For `K = 0` the loop stops at once and
the hook is the only call; no index other than `K-1, .., 0` is ever used. -/
theorem libc_fini_array_descending (t : LinkerTables) (fuel : Nat)
    (hK : t.finiCount < ADDR_MOD) (hf : t.finiCount < fuel) :
    ∃ trace, __libc_fini_array t fuel = some trace
      ∧ trace = (List.range t.finiCount).reverse.map Call.fini ++ [Call._fini]
      ∧ (∀ i, i < t.finiCount → trace.count (Call.fini i) = 1)
      ∧ trace.count Call._fini = 1
      ∧ trace.getLast? = some Call._fini
      ∧ trace.length = t.finiCount + 1
      ∧ (t.finiCount = 0 → trace = [Call._fini]) := by
  refine ⟨_, libc_fini_array_trace t fuel hK hf, rfl, ?_, ?_, ?_, ?_, ?_⟩
  · intro i hi
    rw [List.count_append, List.map_reverse, List.count_reverse,
      count_map_range Call.fini fini_injective _ i hi]
    simp
  · rw [List.count_append, count_map_range_other Call.fini Call._fini (fun _ h => by cases h)]
    simp
  · simp
  · simp
  · intro h0
    rw [h0]
    simp

/-- Witness of C7: three finalization entries. -/
theorem libc_fini_array_descending_witness :
    ∃ trace, __libc_fini_array ⟨0, 0, 3⟩ 4 = some trace
      ∧ trace = (List.range 3).reverse.map Call.fini ++ [Call._fini]
      ∧ (∀ i, i < 3 → trace.count (Call.fini i) = 1)
      ∧ trace.count Call._fini = 1
      ∧ trace.getLast? = some Call._fini
      ∧ trace.length = 3 + 1
      ∧ ((3 : Nat) = 0 → trace = [Call._fini]) :=
  libc_fini_array_descending ⟨0, 0, 3⟩ 4 (by decide) (by decide)

/-! ## I/O shim: the properties -/

/-- C8: for every integer handle `h`, `_isatty(h)` returns 1 exactly when `h` is
0, 1 or 2; for those handles nothing is written (`errno` keeps its value), and
for every other handle, -1 and 99 among them, it returns 0 and sets
`errno = EBADF`. -/
theorem isatty_standard_handles (s : Sys) (h : Int) :
    ((_isatty s h).ret = 1 ↔ (h = 0 ∨ h = 1 ∨ h = 2))
      ∧ ((h = 0 ∨ h = 1 ∨ h = 2) → (_isatty s h).sys = s)
      ∧ (¬ (h = 0 ∨ h = 1 ∨ h = 2) →
          (_isatty s h).ret = 0 ∧ (_isatty s h).sys.errno = EBADF
            ∧ (_isatty s h).sys.heapEnd = s.heapEnd)
      ∧ ((_isatty s (-1)).ret = 0 ∧ (_isatty s (-1)).sys.errno = EBADF)
      ∧ ((_isatty s 99).ret = 0 ∧ (_isatty s 99).sys.errno = EBADF) := by
  refine ⟨?_, ?_, ?_, ⟨rfl, rfl⟩, ⟨rfl, rfl⟩⟩
  · unfold _isatty STDOUT_FILENO STDERR_FILENO STDIN_FILENO
    constructor
    · intro hret
      by_cases h1 : h = 1
      · exact Or.inr (Or.inl h1)
      · by_cases h2 : h = 2
        · exact Or.inr (Or.inr h2)
        · by_cases h0 : h = 0
          · exact Or.inl h0
          · simp [h1, h2, h0] at hret
    · rintro (rfl | rfl | rfl) <;> simp
  · unfold _isatty STDOUT_FILENO STDERR_FILENO STDIN_FILENO
    rintro (rfl | rfl | rfl) <;> simp
  · intro hn
    have h0 : h ≠ 0 := fun e => hn (Or.inl e)
    have h1 : h ≠ 1 := fun e => hn (Or.inr (Or.inl e))
    have h2 : h ≠ 2 := fun e => hn (Or.inr (Or.inr e))
    unfold _isatty STDOUT_FILENO STDERR_FILENO STDIN_FILENO
    simp [h0, h1, h2]

/-- C9 (amended): for every input, `_write`, `_read` and `_close` return -1 and
leave `errno` and the rest of the state as they were; `_kill` returns -1 and
sets `errno = EINVAL`; `_isatty` on a handle other than 0, 1, 2 returns 0 and
sets `errno = EBADF`. -/
theorem shim_soft_failures (s : Sys) (file len pid sig : Int) (buf : List Nat) :
    ((_write s file buf len).ret = -1 ∧ (_write s file buf len).sys = s)
      ∧ ((_read s file buf len).ret = -1 ∧ (_read s file buf len).sys = s)
      ∧ ((_close s file).ret = -1 ∧ (_close s file).sys = s)
      ∧ ((_kill s pid sig).ret = -1 ∧ (_kill s pid sig).sys.errno = EINVAL)
      ∧ (¬ (file = 0 ∨ file = 1 ∨ file = 2) →
          (_isatty s file).ret = 0 ∧ (_isatty s file).sys.errno = EBADF) := by
  refine ⟨⟨rfl, rfl⟩, ⟨rfl, rfl⟩, ⟨rfl, rfl⟩, ⟨rfl, rfl⟩, ?_⟩
  intro hn
  have h0 : file ≠ 0 := fun e => hn (Or.inl e)
  have h1 : file ≠ 1 := fun e => hn (Or.inr (Or.inl e))
  have h2 : file ≠ 2 := fun e => hn (Or.inr (Or.inr e))
  unfold _isatty STDOUT_FILENO STDERR_FILENO STDIN_FILENO
  simp [h0, h1, h2]

/-- C9 as stated fails: called with `errno = 0`, `_write`, `_read` and `_close`
return -1 and `errno` is still 0 afterwards: no error code is recorded. -/
theorem shim_soft_failures_counterexample :
    ((_write ⟨0x20001000, 0⟩ 1 [0x68, 0x69] 2).ret = -1
        ∧ (_write ⟨0x20001000, 0⟩ 1 [0x68, 0x69] 2).sys.errno = 0)
      ∧ ((_read ⟨0x20001000, 0⟩ 0 [0, 0] 2).ret = -1
        ∧ (_read ⟨0x20001000, 0⟩ 0 [0, 0] 2).sys.errno = 0)
      ∧ ((_close ⟨0x20001000, 0⟩ 3).ret = -1 ∧ (_close ⟨0x20001000, 0⟩ 3).sys.errno = 0) := by
  decide

/-- C10: for every handle, buffer and length (zero and negative lengths
included), `_write`, `_read` and `_close` return -1, a negative count; the
buffer holds afterwards what it held before, and neither the returned value nor
the state after the call depends on what the buffer holds. -/
theorem write_read_close_unsupported (s : Sys) (file len : Int) (buf buf2 : List Nat) :
    ((_write s file buf len).ret = -1 ∧ (_write s file buf len).ret < 0
        ∧ (_write s file buf len).obj = buf
        ∧ (_write s file buf2 len).ret = (_write s file buf len).ret
        ∧ (_write s file buf2 len).sys = (_write s file buf len).sys)
      ∧ ((_read s file buf len).ret = -1 ∧ (_read s file buf len).ret < 0
        ∧ (_read s file buf len).obj = buf
        ∧ (_read s file buf2 len).ret = (_read s file buf len).ret
        ∧ (_read s file buf2 len).sys = (_read s file buf len).sys)
      ∧ ((_close s file).ret = -1 ∧ (_close s file).ret < 0)
      ∧ ((_write s file [] 0).ret = -1 ∧ (_read s file [] 0).ret = -1) := by
  have hneg : (-1 : Int) < 0 := by decide
  exact ⟨⟨rfl, hneg, rfl, rfl, rfl⟩, ⟨rfl, hneg, rfl, rfl, rfl⟩, ⟨rfl, hneg⟩, ⟨rfl, rfl⟩⟩

/-! ## I/O shim: frame properties -/

/-- On a standard handle `_isatty` answers 1 and writes nothing. -/
theorem isatty_of_standard (s : Sys) (h : Int) (hh : h = 0 ∨ h = 1 ∨ h = 2) :
    _isatty s h = { ret := 1, obj := (), sys := s } := by
  unfold _isatty STDOUT_FILENO STDERR_FILENO STDIN_FILENO
  rcases hh with rfl | rfl | rfl <;> simp

/-- On any other handle `_isatty` answers 0 and sets `errno = EBADF`. -/
theorem isatty_of_other (s : Sys) (h : Int) (hh : ¬ (h = 0 ∨ h = 1 ∨ h = 2)) :
    _isatty s h = { ret := 0, obj := (), sys := { heapEnd := s.heapEnd, errno := EBADF } } := by
  have h0 : h ≠ 0 := fun e => hh (Or.inl e)
  have h1 : h ≠ 1 := fun e => hh (Or.inr (Or.inl e))
  have h2 : h ≠ 2 := fun e => hh (Or.inr (Or.inr e))
  unfold _isatty STDOUT_FILENO STDERR_FILENO STDIN_FILENO
  simp [h0, h1, h2]

/-- C11 (amended): every I/O shim operation except exit returns for every input
and leaves the arena end as it was. `_write`, `_read`, `_close`, `_lseek`,
`_getpid` and `_isatty` on a standard handle leave the whole observable state
(errno, arena end, the caller's buffer) as it was; `_kill` changes `errno` only
(to `EINVAL`), `_isatty` on another handle changes `errno` only (to `EBADF`),
and `_fstat` changes only the mode field of the caller's status record
(to `S_IFCHR`). -/
theorem shim_frame (s : Sys) (file len ptr dir pid sig : Int) (buf : List Nat) (st : Stat) :
    (_write s file buf len = { ret := -1, obj := buf, sys := s })
      ∧ (_read s file buf len = { ret := -1, obj := buf, sys := s })
      ∧ (_close s file = { ret := -1, obj := (), sys := s })
      ∧ (_lseek s file ptr dir = { ret := 0, obj := (), sys := s })
      ∧ (_getpid s = { ret := 1, obj := (), sys := s })
      ∧ ((file = 0 ∨ file = 1 ∨ file = 2) → _isatty s file = { ret := 1, obj := (), sys := s })
      ∧ (¬ (file = 0 ∨ file = 1 ∨ file = 2) →
          _isatty s file
            = { ret := 0, obj := (), sys := { heapEnd := s.heapEnd, errno := EBADF } })
      ∧ (_kill s pid sig
          = { ret := -1, obj := (), sys := { heapEnd := s.heapEnd, errno := EINVAL } })
      ∧ (_fstat s file st = { ret := 0, obj := { st with st_mode := S_IFCHR }, sys := s })
      ∧ ((_isatty s file).sys.heapEnd = s.heapEnd ∧ (_kill s pid sig).sys.heapEnd = s.heapEnd
          ∧ (_fstat s file st).sys.heapEnd = s.heapEnd) := by
  refine ⟨rfl, rfl, rfl, rfl, rfl, isatty_of_standard s file, isatty_of_other s file, rfl, rfl,
    ?_, rfl, rfl⟩
  by_cases hh : file = 0 ∨ file = 1 ∨ file = 2
  · rw [isatty_of_standard s file hh]
  · rw [isatty_of_other s file hh]

/-- C11 as stated fails: called with `errno = 0`, `_kill(1, 9)` leaves
`errno = EINVAL` and `_isatty(99)` leaves `errno = EBADF`; `_fstat` on a record
whose fields are all zero leaves a record whose mode is `S_IFCHR`. -/
theorem shim_frame_counterexample :
    ((_kill ⟨0x20001000, 0⟩ 1 9).sys = ⟨0x20001000, 22⟩
        ∧ (_kill ⟨0x20001000, 0⟩ 1 9).sys ≠ ⟨0x20001000, 0⟩)
      ∧ ((_isatty ⟨0x20001000, 0⟩ 99).sys = ⟨0x20001000, 9⟩
        ∧ (_isatty ⟨0x20001000, 0⟩ 99).sys ≠ ⟨0x20001000, 0⟩)
      ∧ ((_fstat ⟨0x20001000, 0⟩ 1 ⟨0, 0, 0, 0, 0, 0, 0, 0, 0, 0, 0, 0, 0⟩).obj
          = ⟨0, 0, 8192, 0, 0, 0, 0, 0, 0, 0, 0, 0, 0⟩
        ∧ (_fstat ⟨0x20001000, 0⟩ 1 ⟨0, 0, 0, 0, 0, 0, 0, 0, 0, 0, 0, 0, 0⟩).obj
          ≠ ⟨0, 0, 0, 0, 0, 0, 0, 0, 0, 0, 0, 0, 0⟩) := by
  decide

/-- C12: for every pid and every signal number, `_kill(pid, sig)` returns -1 and
sets `errno` to `EINVAL`; the arena end, the only other state, is unchanged. -/
theorem kill_invalid_argument (s : Sys) (pid sig : Int) :
    (_kill s pid sig).ret = -1 ∧ (_kill s pid sig).sys.errno = EINVAL
      ∧ (_kill s pid sig).sys.heapEnd = s.heapEnd
      ∧ (_kill s pid sig).sys = { s with errno := EINVAL } :=
  ⟨rfl, rfl, rfl, rfl⟩

/-- C13: for every handle and every status record, `_fstat(handle, st)` returns 0
and sets the record's mode to `S_IFCHR`; every other field of the record,
`errno` and the arena end are unchanged. -/
theorem fstat_character_device (s : Sys) (file : Int) (st : Stat) :
    (_fstat s file st).ret = 0 ∧ (_fstat s file st).obj.st_mode = S_IFCHR
      ∧ (_fstat s file st).obj.st_dev = st.st_dev ∧ (_fstat s file st).obj.st_ino = st.st_ino
      ∧ (_fstat s file st).obj.st_nlink = st.st_nlink ∧ (_fstat s file st).obj.st_uid = st.st_uid
      ∧ (_fstat s file st).obj.st_gid = st.st_gid ∧ (_fstat s file st).obj.st_rdev = st.st_rdev
      ∧ (_fstat s file st).obj.st_size = st.st_size
      ∧ (_fstat s file st).obj.st_atime = st.st_atime
      ∧ (_fstat s file st).obj.st_mtime = st.st_mtime
      ∧ (_fstat s file st).obj.st_ctime = st.st_ctime
      ∧ (_fstat s file st).obj.st_blksize = st.st_blksize
      ∧ (_fstat s file st).obj.st_blocks = st.st_blocks
      ∧ (_fstat s file st).sys.errno = s.errno ∧ (_fstat s file st).sys = s :=
  ⟨rfl, rfl, rfl, rfl, rfl, rfl, rfl, rfl, rfl, rfl, rfl, rfl, rfl, rfl, rfl, rfl⟩

/-- C15: for every handle, offset and whence value, `_lseek` returns 0 and
changes no state. -/
theorem lseek_no_op (s : Sys) (file ptr dir : Int) :
    (_lseek s file ptr dir).ret = 0 ∧ (_lseek s file ptr dir).sys = s :=
  ⟨rfl, rfl⟩

/-- C16: in every state reached from any start state through any sequence of
`_sbrk` and shim calls, `_getpid` returns 1 and changes no state, so a second
call returns 1 again. -/
theorem getpid_constant (s0 s : Sys) (ops : List Op) (hrun : runOps s0 ops = some s) :
    (_getpid s).ret = 1 ∧ (_getpid s).sys = s ∧ (_getpid (_getpid s).sys).ret = (_getpid s).ret
      ∧ (_getpid s0).ret = (_getpid s).ret :=
  ⟨rfl, rfl, rfl, rfl⟩

/-- Witness of C16: the state after `_sbrk(0x50)`, `_kill(1, 9)`, `_isatty(5)`
and one `_getpid()`. -/
theorem getpid_constant_witness :
    runOps ⟨0x1000, 0⟩ [Op.sbrk 0x50 0x1100, Op.kill 1 9, Op.isatty 5, Op.getpid]
        = some ⟨0x1050, 9⟩
      ∧ (_getpid ⟨0x1050, 9⟩).ret = 1 ∧ (_getpid ⟨0x1050, 9⟩).sys = ⟨0x1050, 9⟩
      ∧ (_getpid (_getpid ⟨0x1050, 9⟩).sys).ret = (_getpid ⟨0x1050, 9⟩).ret
      ∧ (_getpid ⟨0x1000, 0⟩).ret = (_getpid ⟨0x1050, 9⟩).ret :=
  ⟨by decide,
    getpid_constant ⟨0x1000, 0⟩ ⟨0x1050, 9⟩
      [Op.sbrk 0x50 0x1100, Op.kill 1 9, Op.isatty 5, Op.getpid] (by decide)⟩

/-! ## Process exit: the property -/

/-- C17: for every exit code, `_exit(code)` never returns: after any number of
steps from entry, control is still at the head of the loop `while(1);`, never
back in the caller, and the state is the one `_exit` was entered with. -/
theorem exit_never_returns (code : Int) (s : Sys) (n : Nat) :
    _exit code s n = (Control.atLoop code, s) ∧ (_exit code s n).1 ≠ Control.inCaller := by
  have h : _exit code s n = (Control.atLoop code, s) := by
    induction n with
    | zero => rfl
    | succ k ih =>
      show exitStep (_exit code s k) = (Control.atLoop code, s)
      rw [ih]
      rfl
  refine ⟨h, ?_⟩
  rw [h]
  intro hc
  cases hc

/-! ## Memory arena guard: monotonicity and wrap-around -/

/-- What an aborting call of `_sbrk` has done. -/
theorem sbrk_aborted_inv (s s1 : Sys) (incr : Int) (msp : Nat)
    (h : _sbrk s incr msp = SbrkResult.aborted s1) :
    s1.heapEnd = s.heapEnd ∧ s1.errno = ENOMEM ∧ msp ≤ ptrAdd s.heapEnd incr := by
  by_cases hc : ptrAdd s.heapEnd incr < msp
  · rw [sbrk_returned_of_lt s incr msp hc] at h
    cases h
  · rw [sbrk_aborted_of_ge s incr msp (by omega)] at h
    injection h with h1
    subst h1
    exact ⟨rfl, rfl, by omega⟩

/-- C14 (amended): for every sequence of `_sbrk` calls with non-negative
increments whose exact total, added to the arena end at the start, stays
below `2 ^ 32`, the arena end after each call, returned or refused, is greater
than or equal to the arena end before it, so it never drops below its initial
value. -/
theorem sbrk_monotone_nonneg (s : Sys) (calls : List (Int × Nat))
    (hnn : ∀ c ∈ calls, 0 ≤ c.1)
    (hfit : (s.heapEnd : Int) + (calls.map Prod.fst).sum < (ADDR_MOD : Int)) :
    List.Chain (fun a b : Sys => a.heapEnd ≤ b.heapEnd) s (sbrkTrace s calls)
      ∧ ∀ sf ∈ sbrkTrace s calls, s.heapEnd ≤ sf.heapEnd := by
  induction calls generalizing s with
  | nil =>
    exact ⟨List.Chain.nil, by intro sf hsf; simp [sbrkTrace] at hsf⟩
  | cons c0 rest ih =>
    obtain ⟨incr, msp⟩ := c0
    have hrestnn : ∀ c ∈ rest, 0 ≤ c.1 := fun c hc => hnn c (List.mem_cons_of_mem _ hc)
    have hincr : 0 ≤ incr := hnn (incr, msp) (List.mem_cons_self _ _)
    have hsumnn : 0 ≤ (rest.map Prod.fst).sum := by
      apply List.sum_nonneg
      intro x hx
      obtain ⟨c, hc, rfl⟩ := List.mem_map.mp hx
      exact hrestnn c hc
    simp only [List.map_cons, List.sum_cons] at hfit
    unfold sbrkTrace
    cases hstep : _sbrk s incr msp with
    | aborted s1 =>
      have hinv := sbrk_aborted_inv s s1 incr msp hstep
      simp only
      refine ⟨List.Chain.cons (by omega) List.Chain.nil, ?_⟩
      intro sf hsf
      simp only [List.mem_singleton] at hsf
      subst hsf
      omega
    | returned prev s1 =>
      have hinv := sbrk_returned_inv s s1 incr msp prev hstep
      have hex := ptrAdd_exact s.heapEnd incr (by omega) (by omega)
      have h1 : (s1.heapEnd : Int) = (s.heapEnd : Int) + incr := by rw [hinv.2.1]; exact hex
      have hle : s.heapEnd ≤ s1.heapEnd := by omega
      obtain ⟨hchain, hall⟩ := ih s1 hrestnn (by omega)
      simp only
      refine ⟨List.Chain.cons hle hchain, ?_⟩
      intro sf hsf
      rcases List.mem_cons.mp hsf with rfl | hmem
      · exact hle
      · exact le_trans hle (hall sf hmem)

/-- Witness of C14: from arena end 0x1000 with stack pointer 0x1100, the call
`_sbrk(0x50)` returns and the call `_sbrk(0xB0)` is refused. -/
theorem sbrk_monotone_nonneg_witness :
    (∀ c ∈ [((0x50 : Int), (0x1100 : Nat)), (0xB0, 0x1100)], 0 ≤ c.1)
      ∧ ((0x1000 : Nat) : Int)
          + ([((0x50 : Int), (0x1100 : Nat)), (0xB0, 0x1100)].map Prod.fst).sum < (ADDR_MOD : Int)
      ∧ sbrkTrace ⟨0x1000, 0⟩ [(0x50, 0x1100), (0xB0, 0x1100)] = [⟨0x1050, 0⟩, ⟨0x1050, 12⟩]
      ∧ List.Chain (fun a b : Sys => a.heapEnd ≤ b.heapEnd) ⟨0x1000, 0⟩
          (sbrkTrace ⟨0x1000, 0⟩ [(0x50, 0x1100), (0xB0, 0x1100)])
      ∧ ∀ sf ∈ sbrkTrace ⟨0x1000, 0⟩ [(0x50, 0x1100), (0xB0, 0x1100)], (0x1000 : Nat) ≤ sf.heapEnd :=
  ⟨by decide, by decide, by decide,
    sbrk_monotone_nonneg ⟨0x1000, 0⟩ [(0x50, 0x1100), (0xB0, 0x1100)] (by decide) (by decide)⟩

/-- C14 as stated fails: with arena end 0x1050 and stack pointer 0x1100 the call
`_sbrk(-0x50)` returns and leaves the arena end at 0x1000, below where it was. -/
theorem sbrk_monotone_counterexample :
    _sbrk ⟨0x1050, 0⟩ (-0x50) 0x1100 = SbrkResult.returned 0x1050 ⟨0x1000, 0⟩
      ∧ sbrkTrace ⟨0x1050, 0⟩ [(-0x50, 0x1100)] = [⟨0x1000, 0⟩]
      ∧ ¬ ((0x1050 : Nat) ≤ (_sbrk ⟨0x1050, 0⟩ (-0x50) 0x1100).sys.heapEnd) := by
  decide

/-- C18 (amended): for every arena end `e`, stack pointer `sp` and increment
whose exact sum `e + incr` is below `2 ^ 32`, if `_sbrk(incr)` returns then the
exact sum is below `sp`, and the new arena end is the exact sum when that is
not negative. -/
theorem sbrk_accept_exact (s s1 : Sys) (incr : Int) (msp prev : Nat)
    (hfit : (s.heapEnd : Int) + incr < (ADDR_MOD : Int))
    (hret : _sbrk s incr msp = SbrkResult.returned prev s1) :
    (s.heapEnd : Int) + incr < (msp : Int)
      ∧ (0 ≤ (s.heapEnd : Int) + incr → (s1.heapEnd : Int) = (s.heapEnd : Int) + incr) := by
  have hinv := sbrk_returned_inv s s1 incr msp prev hret
  by_cases h0 : 0 ≤ (s.heapEnd : Int) + incr
  · have hex := ptrAdd_exact s.heapEnd incr h0 hfit
    refine ⟨by omega, fun _ => ?_⟩
    rw [hinv.2.1]
    exact hex
  · exact ⟨by omega, fun h => absurd h h0⟩

/-- Witness of C18 (amended): arena end 0x1000, increment 0x50, stack pointer 0x1100. -/
theorem sbrk_accept_exact_witness :
    ((0x1000 : Nat) : Int) + 0x50 < (ADDR_MOD : Int)
      ∧ _sbrk ⟨0x1000, 0⟩ 0x50 0x1100 = SbrkResult.returned 0x1000 ⟨0x1050, 0⟩
      ∧ ((0x1000 : Nat) : Int) + 0x50 < ((0x1100 : Nat) : Int)
      ∧ (0 ≤ ((0x1000 : Nat) : Int) + 0x50 →
          ((0x1050 : Nat) : Int) = ((0x1000 : Nat) : Int) + 0x50) :=
  ⟨by decide, by decide,
    sbrk_accept_exact ⟨0x1000, 0⟩ ⟨0x1050, 0⟩ 0x50 0x1100 0x1000 (by decide) (by decide)⟩

/-- C18 as stated fails: arena end 0xD0000000 and stack pointer 0xD0010000 are
addresses with `e ≤ sp`, the increment 0x40000000 lies in `[0, 2 ^ 31)`, the
wrapped sum 0x10000000 is below the stack pointer and the call returns, yet
the exact sum 0x110000000 is not below the stack pointer. -/
theorem sbrk_accept_wrap_counterexample :
    (0xD0000000 : Nat) < ADDR_MOD ∧ (0xD0010000 : Nat) < ADDR_MOD
      ∧ (0xD0000000 : Nat) ≤ 0xD0010000
      ∧ (0 : Int) ≤ 0x40000000 ∧ (0x40000000 : Int) < 2147483648
      ∧ ptrAdd 0xD0000000 0x40000000 = 0x10000000
      ∧ _sbrk ⟨0xD0000000, 0⟩ 0x40000000 0xD0010000
          = SbrkResult.returned 0xD0000000 ⟨0x10000000, 0⟩
      ∧ ¬ (((0xD0000000 : Nat) : Int) + 0x40000000 < ((0xD0010000 : Nat) : Int)) := by
  decide

/-! ## Firmware version: the property -/

/-- C19: the version string `fwinfoVersion` is the decimal renderings of
`fwinfoMajor`, `fwinfoMinor`, `fwinfoRevision` and `fwinfoBuild` joined by dots,
in that order: "2.1.6.4296" for 2, 1, 6, 4296. -/
theorem fwinfoVersion_dotted :
    fwinfoVersion
        = String.intercalate "."
            [Nat.repr fwinfoMajor, Nat.repr fwinfoMinor, Nat.repr fwinfoRevision,
              Nat.repr fwinfoBuild]
      ∧ fwinfoVersion = "2.1.6.4296"
      ∧ (fwinfoMajor, fwinfoMinor, fwinfoRevision, fwinfoBuild) = (2, 1, 6, 4296) := by
  decide

end PS3604L
